import Mathlib

/-!
# Quadro_bubbles: the Vue component of `src/bbb/app.js`

A shallow embedding of the component's state (`data()`), of its loader
(`processExcelData`), of the window operations (`setStepWeight`,
`increaseMaxRows`, `decreaseMaxRows`, `updateDisplayedData`) and of the two
pure helpers of `createBubbleChart` (`getColor`, `splitIntoLines`).

Conventions.
* A JavaScript number is a `JSNum`: `NaN`, the two infinities, or a finite
  value.  Every finite double is a rational, and `Math.floor` and `%` are exact
  on doubles, so the finite values are carried as rationals.
* The counters `maxRows` and `stepWeight` only ever hold integers; they are
  `Int`, with `Math.min`, `Math.max`, `+` and `-` the integer operations.
* A JavaScript string is a list of characters; its `.length` is the number of
  UTF-16 code units (`jsLength`).
* The library calls `XLSX.read` and `XLSX.utils.sheet_to_json` are outside the
  repository: `processExcelData` is modelled from the decoded row list
  `jsonData` on.
-/

namespace QuadroBubbles

/-! ## JavaScript values -/

/-- A JavaScript number. -/
inductive JSNum where
  | nan : JSNum
  | posInf : JSNum
  | negInf : JSNum
  | fin (q : ℚ) : JSNum
  deriving DecidableEq

/-- A cell value as it can appear in a decoded row; `undefined` is also what
reading an absent key gives. -/
inductive JSValue where
  | undefined : JSValue
  | null : JSValue
  | bool (b : Bool) : JSValue
  | num (n : JSNum) : JSValue
  | str (s : String) : JSValue
  deriving DecidableEq

/-- A decoded sheet row: an object, as its own keys with their values. -/
abbrev Row := List (String × JSValue)

/-- The call `item.hasOwnProperty(key)`, the method being the one inherited
from `Object.prototype` (no column of the sheet is itself named
`hasOwnProperty`). -/
def hasOwnProperty (item : Row) (key : String) : Bool :=
  item.any (fun kv => kv.1 == key)

/-- The property read `item.key`. -/
def getProp (item : Row) (key : String) : JSValue :=
  match item.find? (fun kv => kv.1 == key) with
  | some kv => kv.2
  | none => JSValue.undefined

/-! ## The component state -/

/-- The object returned by `data()`. -/
structure State where
  title : String
  data : List Row
  error : Option String
  maxRows : Int
  allData : List Row
  isFileLoaded : Bool
  stepWeight : Int
  availableWeights : List Int
  hasNoteColumn : Bool
  deriving DecidableEq

/-- The state `data()` returns. -/
def initialState : State :=
  { title := "Пузырьки"
    data := []
    error := none
    maxRows := 15
    allData := []
    isFileLoaded := false
    stepWeight := 5
    availableWeights := [1, 5, 10, 100]
    hasNoteColumn := false }

/-- The call `xs.slice(0, n)` for an integer `n`: a negative end counts from
the end of the array. -/
def slice0 {α : Type} (xs : List α) (n : Int) : List α :=
  if n < 0 then xs.take (xs.length - n.natAbs) else xs.take n.toNat

/-- The method `updateDisplayedData`: nothing when `allData` is empty, else
`data` becomes the first `maxRows` rows (the chart is redrawn afterwards). -/
def updateDisplayedData (s : State) : State :=
  if s.allData.length = 0 then s
  else { s with data := slice0 s.allData s.maxRows }

/-- The method `setStepWeight`. -/
def setStepWeight (s : State) (weight : Int) : State :=
  { s with stepWeight := weight }

/-- The method `increaseMaxRows`. -/
def increaseMaxRows (s : State) : State :=
  updateDisplayedData
    { s with maxRows := min (s.maxRows + s.stepWeight) (s.allData.length : Int) }

/-- The method `decreaseMaxRows`. -/
def decreaseMaxRows (s : State) : State :=
  updateDisplayedData
    { s with maxRows := max s.stepWeight (s.maxRows - s.stepWeight) }

/-- One call on the window. -/
inductive Op where
  | setStepWeight (weight : Int) : Op
  | increaseMaxRows : Op
  | decreaseMaxRows : Op
  deriving DecidableEq

/-- The effect of one call. -/
def Op.apply (s : State) : Op → State
  | Op.setStepWeight w => QuadroBubbles.setStepWeight s w
  | Op.increaseMaxRows => QuadroBubbles.increaseMaxRows s
  | Op.decreaseMaxRows => QuadroBubbles.decreaseMaxRows s

/-- The effect of a finite sequence of calls, first call first. -/
def run (s : State) (ops : List Op) : State :=
  ops.foldl Op.apply s

/-- Whether the last call of a sequence is a `setStepWeight`. -/
def endsWithSet : List Op → Bool
  | [] => false
  | [Op.setStepWeight _] => true
  | [_] => false
  | _ :: op :: ops => endsWithSet (op :: ops)

/-! ## The loader -/

/-- The characters `ToNumber` strips from both ends of a string: the
ECMAScript white space and line terminators. -/
def isStrWhiteSpace (c : Char) : Bool :=
  let n := c.toNat
  n = 0x09 || n = 0x0A || n = 0x0B || n = 0x0C || n = 0x0D || n = 0x20 ||
  n = 0xA0 || n = 0x1680 || (0x2000 ≤ n && n ≤ 0x200A) || n = 0x2028 ||
  n = 0x2029 || n = 0x202F || n = 0x205F || n = 0x3000 || n = 0xFEFF

/-- Strip the white space at both ends. -/
def trimWhiteSpace (cs : List Char) : List Char :=
  ((cs.dropWhile isStrWhiteSpace).reverse.dropWhile isStrWhiteSpace).reverse

/-- A decimal digit. -/
def isDecimalDigit (c : Char) : Bool := '0' ≤ c && c ≤ '9'

/-- A hexadecimal digit. -/
def isHexDigit (c : Char) : Bool :=
  isDecimalDigit c || ('a' ≤ c && c ≤ 'f') || ('A' ≤ c && c ≤ 'F')

/-- One or more characters, all satisfying `p`. -/
def isNonemptyAll (p : Char → Bool) (cs : List Char) : Bool :=
  !cs.isEmpty && cs.all p

/-- Drop one leading sign, if there is one. -/
def dropSign : List Char → List Char
  | '+' :: cs => cs
  | '-' :: cs => cs
  | cs => cs

/-- An optional `ExponentPart`: nothing, or `e`/`E`, an optional sign and
digits. -/
def isOptExponentPart : List Char → Bool
  | [] => true
  | c :: cs => (c == 'e' || c == 'E') && isNonemptyAll isDecimalDigit (dropSign cs)

/-- The grammar `StrUnsignedDecimalLiteral`: `Infinity`, `digits . digits? exp?`,
`. digits exp?` or `digits exp?`. -/
def isStrUnsignedDecimalLiteral (cs : List Char) : Bool :=
  if cs = "Infinity".toList then true
  else
    let intPart := cs.takeWhile isDecimalDigit
    match cs.dropWhile isDecimalDigit with
    | '.' :: rest =>
      let fracPart := rest.takeWhile isDecimalDigit
      (!intPart.isEmpty || !fracPart.isEmpty) &&
        isOptExponentPart (rest.dropWhile isDecimalDigit)
    | rest => !intPart.isEmpty && isOptExponentPart rest

/-- The grammar `NonDecimalIntegerLiteral`: `0x`, `0o` or `0b` and digits of
that base. -/
def isNonDecimalIntegerLiteral : List Char → Bool
  | '0' :: c :: cs =>
    if c == 'x' || c == 'X' then isNonemptyAll isHexDigit cs
    else if c == 'o' || c == 'O' then isNonemptyAll (fun d => '0' ≤ d && d ≤ '7') cs
    else if c == 'b' || c == 'B' then isNonemptyAll (fun d => d == '0' || d == '1') cs
    else false
  | _ => false

/-- Whether `ToNumber` of a string is a number rather than `NaN`: after
trimming, the string is empty (it converts to `0`) or a
`StringNumericLiteral`. -/
def stringIsNumeric (s : String) : Bool :=
  let cs := trimWhiteSpace s.toList
  cs.isEmpty || isNonDecimalIntegerLiteral cs || isStrUnsignedDecimalLiteral (dropSign cs)

/-- The global function `isNaN`: its argument is converted with `ToNumber`
and the result tested for `NaN`.  `undefined` converts to `NaN`, `null` and
the booleans to `0` or `1`, a string to the number it spells or to `NaN`. -/
def isNaN : JSValue → Bool
  | JSValue.undefined => true
  | JSValue.null => false
  | JSValue.bool _ => false
  | JSValue.num JSNum.nan => true
  | JSValue.num _ => false
  | JSValue.str s => !stringIsNumeric s

/-- The message thrown by the column check. -/
def columnsMessage : String := "Файл должен содержать колонки: X, Y, R, Name"

/-- The message thrown by the numeric check. -/
def numbersMessage : String := "Колонки X, Y, R должны содержать только числа"

/-- The text the `catch` block puts before the message. -/
def readErrorLead : String := "Ошибка при чтении файла: "

/-- The filter predicate of `processExcelData`. -/
def isValidItem (item : Row) : Bool :=
  !isNaN (getProp item "X") && !isNaN (getProp item "Y") && !isNaN (getProp item "R")

/-- The condition of the first `if` of `processExcelData`. -/
def columnCheckFails : List Row → Bool
  | [] => true
  | first :: _ =>
    !hasOwnProperty first "X" || !hasOwnProperty first "Y" ||
    !hasOwnProperty first "R" || !hasOwnProperty first "Name"

/-- The `try` block of `processExcelData` from `jsonData` on: the thrown
message, or the state at the end of the block. -/
def processExcelDataTry (s : State) (jsonData : List Row) : Except String State :=
  if columnCheckFails jsonData then
    Except.error columnsMessage
  else
    let validData := jsonData.filter isValidItem
    if validData.length ≠ jsonData.length then
      Except.error numbersMessage
    else
      Except.ok (updateDisplayedData
        { s with allData := validData, isFileLoaded := true, error := none })

/-- The method `processExcelData`, from the decoded row list `jsonData` on:
the `try` block, and the `catch` block when it throws.  Both `throw`s come
before the first assignment, so the `catch` block starts from `s`. -/
def processExcelData (s : State) (jsonData : List Row) : State :=
  match processExcelDataTry s jsonData with
  | Except.ok t => t
  | Except.error message =>
    { s with error := some (readErrorLead ++ message), isFileLoaded := false }

/-! ## The helpers of `createBubbleChart` -/

/-- The function `Math.floor`. -/
def mathFloor : JSNum → JSNum
  | JSNum.fin q => JSNum.fin (⌊q⌋ : Int)
  | n => n

/-- The operator `%`: the remainder has the sign of the dividend;
`NaN` when the dividend is not finite or the divisor is zero. -/
def jsRem : JSNum → JSNum → JSNum
  | JSNum.nan, _ => JSNum.nan
  | _, JSNum.nan => JSNum.nan
  | JSNum.posInf, _ => JSNum.nan
  | JSNum.negInf, _ => JSNum.nan
  | JSNum.fin n, JSNum.posInf => JSNum.fin n
  | JSNum.fin n, JSNum.negInf => JSNum.fin n
  | JSNum.fin n, JSNum.fin d =>
    if d = 0 then JSNum.nan
    else JSNum.fin (n - d * (if 0 ≤ n / d then (⌊n / d⌋ : Int) else (⌈n / d⌉ : Int)))

/-- The colours `getColor` can return. -/
inductive Color where
  | yellow | green | red | blue | steelblue
  deriving DecidableEq

/-- The function `getColor`, on a cell of the number type: a `switch` on
`Math.floor(x) % 4` (its cases compare with `===`, under which `-0` is `0`). -/
def getColor (x : JSNum) : Color :=
  let k := jsRem (mathFloor x) (JSNum.fin 4)
  if k = JSNum.fin 0 then Color.yellow
  else if k = JSNum.fin 1 then Color.green
  else if k = JSNum.fin 2 then Color.red
  else if k = JSNum.fin 3 then Color.blue
  else Color.steelblue

/-- The `.length` of a string: its number of UTF-16 code units. -/
def jsLength (s : List Char) : Nat :=
  (s.map (fun c => if c.toNat < 0x10000 then 1 else 2)).sum

/-- The call `text.split(' ')`: the pieces between the spaces; never empty. -/
def splitSpace : List Char → List (List Char)
  | [] => [[]]
  | c :: cs =>
    if c = ' ' then [] :: splitSpace cs
    else
      match splitSpace cs with
      | [] => [[c]]
      | w :: ws => (c :: w) :: ws

/-- The `for` loop of `splitIntoLines` over the remaining words, from the
values of `lines` and `currentLine`; ends with the final `push`. -/
def splitLoop (maxWidth : Nat) : List (List Char) → List Char → List (List Char) →
    List (List Char)
  | lines, currentLine, [] => lines ++ [currentLine]
  | lines, currentLine, word :: rest =>
    let width := jsLength currentLine + jsLength word + 1
    if width ≤ maxWidth then
      splitLoop maxWidth lines (currentLine ++ ' ' :: word) rest
    else
      splitLoop maxWidth (lines ++ [currentLine]) word rest

/-- The function `splitIntoLines`. -/
def splitIntoLines (text : List Char) (maxWidth : Nat) : List (List Char) :=
  match splitSpace text with
  | [] => []
  | first :: rest => splitLoop maxWidth [] first rest

/-! ## Sample data and the predicates of the statements -/

/-- A row with numeric `X`, `Y`, `R` and a `Name`. -/
def sampleRow : Row :=
  [("X", JSValue.num (JSNum.fin 1)), ("Y", JSValue.num (JSNum.fin 2)),
   ("R", JSValue.num (JSNum.fin 3)), ("Name", JSValue.str "a")]

/-- The component after a sheet of `n` sample rows is loaded into the initial
state. -/
def loaded (n : Nat) : State :=
  processExcelData initialState (List.replicate n sampleRow)

/-- The clamped window of the specification:
`stepWeight ≤ maxRows ≤ allData.length`. -/
def windowInvariant (s : State) : Prop :=
  s.stepWeight ≤ s.maxRows ∧ s.maxRows ≤ (s.allData.length : Int)

instance (s : State) : Decidable (windowInvariant s) := by
  unfold windowInvariant; infer_instance

/-- The bounds every call keeps when the dataset has `len` rows and all the
weights in use are positive and at most `len`. -/
def Bounded (len : Int) (s : State) : Prop :=
  (s.allData.length : Int) = len ∧ 0 < s.stepWeight ∧ s.stepWeight ≤ len ∧
  0 < s.maxRows ∧ s.maxRows ≤ len

/-- A row whose `X` cell is the text `abc`. -/
def textRow : Row :=
  [("X", JSValue.str "abc"), ("Y", JSValue.num (JSNum.fin 2)),
   ("R", JSValue.num (JSNum.fin 3)), ("Name", JSValue.str "b")]

/-- A row without the `R` and `Name` keys. -/
def shortRow : Row :=
  [("X", JSValue.num (JSNum.fin 1)), ("Y", JSValue.num (JSNum.fin 2))]

/-- A row whose `X` is the number `-1`. -/
def negativeRow : Row :=
  [("X", JSValue.num (JSNum.fin (-1))), ("Y", JSValue.num (JSNum.fin 2)),
   ("R", JSValue.num (JSNum.fin 3)), ("Name", JSValue.str "d")]

/-- The note of the word-wrap scenario: twenty letters, nineteen spaces. -/
def scenarioNote : List Char := "a b c d e f g h i j k l m n o p q r s t".toList

/-- A note that needs two lines at width 40. -/
def longNote : List Char :=
  "the quick brown fox jumps over the lazy dog again and again".toList

/-- The first of the words `line.split(' ')` gives. -/
def firstWord (line : List Char) : List Char :=
  match splitSpace line with
  | [] => []
  | w :: _ => w

/-- The condition under which the loop of `splitIntoLines` closes the line
`line` and starts the next one, `next`, with a word: that word and one space
do not fit behind `line` within `maxWidth`. -/
def Overflows (maxWidth : Nat) (line next : List Char) : Prop :=
  maxWidth < jsLength line + jsLength (firstWord next) + 1

/-! ## Lemmas on the window operations -/

@[simp] theorem updateDisplayedData_maxRows (s : State) :
    (updateDisplayedData s).maxRows = s.maxRows := by
  unfold updateDisplayedData; split <;> rfl

@[simp] theorem updateDisplayedData_stepWeight (s : State) :
    (updateDisplayedData s).stepWeight = s.stepWeight := by
  unfold updateDisplayedData; split <;> rfl

@[simp] theorem updateDisplayedData_allData (s : State) :
    (updateDisplayedData s).allData = s.allData := by
  unfold updateDisplayedData; split <;> rfl

@[simp] theorem updateDisplayedData_isFileLoaded (s : State) :
    (updateDisplayedData s).isFileLoaded = s.isFileLoaded := by
  unfold updateDisplayedData; split <;> rfl

@[simp] theorem updateDisplayedData_error (s : State) :
    (updateDisplayedData s).error = s.error := by
  unfold updateDisplayedData; split <;> rfl

theorem run_concat (s : State) (ops : List Op) (op : Op) :
    run s (ops ++ [op]) = Op.apply (run s ops) op := by
  simp [run, List.foldl_append]

theorem endsWithSet_concat (ops : List Op) (op : Op) :
    endsWithSet (ops ++ [op]) = true ↔ ∃ w, op = Op.setStepWeight w := by
  induction ops with
  | nil => cases op <;> simp [endsWithSet]
  | cons a ops ih =>
    cases ops with
    | nil => cases op <;> simp [endsWithSet]
    | cons b ops => simpa [endsWithSet] using ih

theorem bounded_apply {len : Int} {s : State} (h : Bounded len s) (op : Op)
    (hop : ∀ w, op = Op.setStepWeight w → 0 < w ∧ w ≤ len) :
    Bounded len (Op.apply s op) := by
  obtain ⟨h1, h2, h3, h4, h5⟩ := h
  cases op with
  | setStepWeight w =>
    obtain ⟨hw1, hw2⟩ := hop w rfl
    exact ⟨h1, hw1, hw2, h4, h5⟩
  | increaseMaxRows =>
    simp only [Bounded, Op.apply, increaseMaxRows, updateDisplayedData_allData,
      updateDisplayedData_stepWeight, updateDisplayedData_maxRows]
    refine ⟨h1, h2, h3, ?_, ?_⟩
    · rw [h1]; exact lt_min (by omega) (by omega)
    · rw [h1]; exact min_le_right _ _
  | decreaseMaxRows =>
    simp only [Bounded, Op.apply, decreaseMaxRows, updateDisplayedData_allData,
      updateDisplayedData_stepWeight, updateDisplayedData_maxRows]
    refine ⟨h1, h2, h3, ?_, ?_⟩
    · exact lt_of_lt_of_le h2 (le_max_left _ _)
    · exact max_le h3 (by omega)

theorem bounded_run {len : Int} (ops : List Op) :
    ∀ s : State, Bounded len s →
      (∀ w, Op.setStepWeight w ∈ ops → 0 < w ∧ w ≤ len) → Bounded len (run s ops) := by
  induction ops with
  | nil => intro s h _; exact h
  | cons op ops ih =>
    intro s h hw
    have h1 : Bounded len (Op.apply s op) :=
      bounded_apply h op (fun w e => hw w (by simp [e]))
    exact ih _ h1 (fun w hmem => hw w (List.mem_cons_of_mem _ hmem))

theorem run_allData (ops : List Op) : ∀ s : State, (run s ops).allData = s.allData := by
  induction ops with
  | nil => intro s; rfl
  | cons op ops ih =>
    intro s
    have : (Op.apply s op).allData = s.allData := by
      cases op <;> simp [Op.apply, setStepWeight, increaseMaxRows, decreaseMaxRows]
    simpa [run, this] using (ih (Op.apply s op)).trans this

/-- After an `increaseMaxRows` or `decreaseMaxRows` from a bounded state the
step is at most the visible count. -/
theorem step_le_after_move {len : Int} {s : State} (h : Bounded len s) (op : Op)
    (hop : ∀ w, op ≠ Op.setStepWeight w) :
    (Op.apply s op).stepWeight ≤ (Op.apply s op).maxRows := by
  obtain ⟨h1, h2, h3, h4, h5⟩ := h
  cases op with
  | setStepWeight w => exact absurd rfl (hop w)
  | increaseMaxRows =>
    simp only [Op.apply, increaseMaxRows, updateDisplayedData_stepWeight,
      updateDisplayedData_maxRows]
    rw [h1]; exact le_min (by omega) h3
  | decreaseMaxRows =>
    simp only [Op.apply, decreaseMaxRows, updateDisplayedData_stepWeight,
      updateDisplayedData_maxRows]
    exact le_max_left _ _

/-! ## The three outcomes of the loader -/

theorem processExcelData_of_columnCheckFails (s : State) (jsonData : List Row)
    (h : columnCheckFails jsonData = true) :
    processExcelData s jsonData =
      { s with error := some (readErrorLead ++ columnsMessage), isFileLoaded := false } := by
  simp [processExcelData, processExcelDataTry, h]

theorem processExcelData_of_invalid (s : State) (jsonData : List Row)
    (h : columnCheckFails jsonData = false)
    (hlen : (jsonData.filter isValidItem).length ≠ jsonData.length) :
    processExcelData s jsonData =
      { s with error := some (readErrorLead ++ numbersMessage), isFileLoaded := false } := by
  unfold processExcelData processExcelDataTry
  rw [if_neg (by simp [h]), if_pos hlen]

theorem processExcelData_of_valid (s : State) (jsonData : List Row)
    (h : columnCheckFails jsonData = false)
    (hlen : (jsonData.filter isValidItem).length = jsonData.length) :
    processExcelData s jsonData =
      updateDisplayedData
        { s with allData := jsonData.filter isValidItem, isFileLoaded := true, error := none } := by
  unfold processExcelData processExcelDataTry
  rw [if_neg (by simp [h]), if_neg (by simp [hlen])]

theorem processExcelData_cases (s : State) (jsonData : List Row) :
    (columnCheckFails jsonData = true ∧ processExcelData s jsonData =
      { s with error := some (readErrorLead ++ columnsMessage), isFileLoaded := false }) ∨
    ((jsonData.filter isValidItem).length ≠ jsonData.length ∧ processExcelData s jsonData =
      { s with error := some (readErrorLead ++ numbersMessage), isFileLoaded := false }) ∨
    ((jsonData.filter isValidItem).length = jsonData.length ∧ processExcelData s jsonData =
      updateDisplayedData
        { s with allData := jsonData.filter isValidItem, isFileLoaded := true,
                 error := none }) := by
  cases h : columnCheckFails jsonData with
  | true => exact Or.inl ⟨rfl, processExcelData_of_columnCheckFails s jsonData h⟩
  | false =>
    by_cases hlen : (jsonData.filter isValidItem).length = jsonData.length
    · exact Or.inr (Or.inr ⟨hlen, processExcelData_of_valid s jsonData h hlen⟩)
    · exact Or.inr (Or.inl ⟨hlen, processExcelData_of_invalid s jsonData h hlen⟩)

/-! ## Lemmas on `getColor` -/

/-- Truncating a quarter of an integer, as `%` does, is `Int.tdiv`. -/
theorem trunc_quarter (k : Int) :
    (if 0 ≤ (k : ℚ) / 4 then ⌊(k : ℚ) / 4⌋ else ⌈(k : ℚ) / 4⌉) = Int.tdiv k 4 := by
  have h4 : ((4 : ℕ) : ℚ) = 4 := by norm_num
  by_cases hk : 0 ≤ k
  · have hq : 0 ≤ (k : ℚ) / 4 := div_nonneg (by exact_mod_cast hk) (by norm_num)
    rw [if_pos hq, ← h4, Rat.floor_intCast_div_natCast, Int.tdiv_eq_ediv hk (by norm_num)]
    rfl
  · have hk' : k < 0 := not_le.1 hk
    have hq : ¬ 0 ≤ (k : ℚ) / 4 := by
      rw [not_le]
      exact div_neg_of_neg_of_pos (by exact_mod_cast hk') (by norm_num)
    rw [if_neg hq]
    have hceil : ⌈(k : ℚ) / 4⌉ = -⌊((-k : Int) : ℚ) / ((4 : ℕ) : ℚ)⌋ := by
      rw [h4, ← Int.ceil_neg]
      congr 1
      push_cast
      ring
    rw [hceil, Rat.floor_intCast_div_natCast, ← Int.tdiv_eq_ediv (by omega) (by norm_num),
      Int.neg_tdiv]
    simp

/-- On an integer, `% 4` is `Int.tmod`. -/
theorem jsRem_int_four (k : Int) :
    jsRem (JSNum.fin (k : ℚ)) (JSNum.fin 4) = JSNum.fin ((Int.tmod k 4 : Int) : ℚ) := by
  have h : ((Int.tmod k 4 : Int) : ℚ) = (k : ℚ) - 4 * ((Int.tdiv k 4 : Int) : ℚ) := by
    rw [Int.tmod_def]; push_cast; ring
  simp only [jsRem]
  rw [if_neg (by norm_num), trunc_quarter, h]

/-- The `switch` of `getColor` on a finite number, by the truncated remainder
of its floor. -/
theorem getColor_fin (q : ℚ) :
    getColor (JSNum.fin q) =
      if Int.tmod ⌊q⌋ 4 = 0 then Color.yellow
      else if Int.tmod ⌊q⌋ 4 = 1 then Color.green
      else if Int.tmod ⌊q⌋ 4 = 2 then Color.red
      else if Int.tmod ⌊q⌋ 4 = 3 then Color.blue
      else Color.steelblue := by
  simp only [getColor, mathFloor, jsRem_int_four, JSNum.fin.injEq]
  have e : ∀ n : Int, ((Int.tmod ⌊q⌋ 4 : Int) : ℚ) = (n : ℚ) ↔ Int.tmod ⌊q⌋ 4 = n :=
    fun n => Int.cast_inj
  have e0 := e 0
  have e1 := e 1
  have e2 := e 2
  have e3 := e 3
  simp only [Int.cast_zero, Int.cast_one, Int.cast_ofNat] at e0 e1 e2 e3
  simp only [e0, e1, e2, e3]


/-! ## Lemmas on `splitIntoLines` -/

theorem jsLength_append (a b : List Char) : jsLength (a ++ b) = jsLength a + jsLength b := by
  simp [jsLength, List.map_append, List.sum_append]

theorem jsLength_space_cons (w : List Char) : jsLength (' ' :: w) = 1 + jsLength w := by
  simp [jsLength]

theorem splitSpace_ne_nil (text : List Char) : splitSpace text ≠ [] := by
  cases text with
  | nil => simp [splitSpace]
  | cons c cs =>
    unfold splitSpace
    split
    · simp
    · split <;> simp

theorem splitSpace_no_space (text : List Char) : ∀ w ∈ splitSpace text, ' ' ∉ w := by
  induction text with
  | nil => intro w hw; simp [splitSpace] at hw; subst hw; simp
  | cons c cs ih =>
    intro w hw
    unfold splitSpace at hw
    split at hw
    · rcases List.mem_cons.1 hw with h | h
      · subst h; simp
      · exact ih w h
    · rename_i hc
      split at hw
      · simp at hw; subst hw; simpa using Ne.symm hc
      · rename_i w0 ws heq
        rcases List.mem_cons.1 hw with h | h
        · subst h
          have h0 := ih w0 (by rw [heq]; exact List.mem_cons_self _ _)
          simp only [List.mem_cons, not_or]
          exact ⟨Ne.symm hc, h0⟩
        · exact ih w (by rw [heq]; exact List.mem_cons_of_mem _ h)

theorem firstWord_of_no_space (w : List Char) (h : ' ' ∉ w) : firstWord w = w := by
  induction w with
  | nil => rfl
  | cons c cs ih =>
    have hc : c ≠ ' ' := fun e => h (by simp [e])
    have hcs : ' ' ∉ cs := fun e => h (List.mem_cons_of_mem _ e)
    have ih1 := ih hcs
    unfold firstWord at ih1 ⊢
    unfold splitSpace
    rw [if_neg hc]
    split at ih1
    · rename_i heq; exact absurd heq (splitSpace_ne_nil cs)
    · rename_i w0 ws heq
      rw [ih1]

theorem firstWord_append_space (a w : List Char) :
    firstWord (a ++ ' ' :: w) = firstWord a := by
  induction a with
  | nil =>
    simp [firstWord, splitSpace]
  | cons c cs ih =>
    unfold firstWord at ih ⊢
    simp only [List.cons_append]
    by_cases hc : c = ' '
    · simp [splitSpace, hc]
    · have e1 : splitSpace (c :: (cs ++ ' ' :: w)) =
          match splitSpace (cs ++ ' ' :: w) with
          | [] => [[c]]
          | w0 :: ws => (c :: w0) :: ws := by
        rw [splitSpace, if_neg hc]
      have e2 : splitSpace (c :: cs) =
          match splitSpace cs with
          | [] => [[c]]
          | w0 :: ws => (c :: w0) :: ws := by
        rw [splitSpace, if_neg hc]
      rw [e1, e2]
      cases h1 : splitSpace (cs ++ ' ' :: w) with
      | nil => exact absurd h1 (splitSpace_ne_nil _)
      | cons x xs =>
        cases h2 : splitSpace cs with
        | nil => exact absurd h2 (splitSpace_ne_nil _)
        | cons y ys =>
          rw [h1, h2] at ih
          simp only at ih ⊢
          rw [ih]

theorem splitLoop_acc (maxWidth : Nat) (rest : List (List Char)) :
    ∀ (lines : List (List Char)) (cur : List Char),
      splitLoop maxWidth lines cur rest = lines ++ splitLoop maxWidth [] cur rest := by
  induction rest with
  | nil => intro lines cur; simp [splitLoop]
  | cons word rest ih =>
    intro lines cur
    simp only [splitLoop]
    split
    · exact ih lines _
    · rw [ih (lines ++ [cur]) word, ih ([] ++ [cur]) word]
      simp

theorem splitLoop_width (maxWidth : Nat) (rest : List (List Char)) :
    ∀ cur : List Char, jsLength cur ≤ maxWidth →
      (∀ w ∈ rest, jsLength w ≤ maxWidth) →
      ∀ line ∈ splitLoop maxWidth [] cur rest, jsLength line ≤ maxWidth := by
  induction rest with
  | nil =>
    intro cur hcur _ line hline
    simp [splitLoop] at hline
    subst hline; exact hcur
  | cons word rest ih =>
    intro cur hcur hrest line hline
    simp only [splitLoop] at hline
    split at hline
    · rename_i hfit
      refine ih _ ?_ (fun w hw => hrest w (List.mem_cons_of_mem _ hw)) line hline
      rw [jsLength_append, jsLength_space_cons]
      omega
    · rw [splitLoop_acc] at hline
      simp only [List.nil_append, List.singleton_append, List.mem_cons] at hline
      rcases hline with h | h
      · subst h; exact hcur
      · exact ih word (hrest word (List.mem_cons_self _ _))
          (fun w hw => hrest w (List.mem_cons_of_mem _ hw)) line h

theorem splitLoop_breaks (maxWidth : Nat) (rest : List (List Char)) :
    ∀ cur : List Char, (∀ w ∈ rest, ' ' ∉ w) →
      List.Chain' (Overflows maxWidth) (splitLoop maxWidth [] cur rest) ∧
      ∃ l0 tail, splitLoop maxWidth [] cur rest = l0 :: tail ∧
        firstWord l0 = firstWord cur := by
  induction rest with
  | nil =>
    intro cur _
    simp [splitLoop]
  | cons word rest ih =>
    intro cur hrest
    have hrest' : ∀ w ∈ rest, ' ' ∉ w := fun w hw => hrest w (List.mem_cons_of_mem _ hw)
    simp only [splitLoop]
    split
    · obtain ⟨hc, l0, tail, heq, hfw⟩ := ih (cur ++ ' ' :: word) hrest'
      exact ⟨hc, l0, tail, heq, by rw [hfw, firstWord_append_space]⟩
    · rename_i hno
      obtain ⟨hc, l0, tail, heq, hfw⟩ := ih word hrest'
      rw [splitLoop_acc, heq]
      refine ⟨?_, cur, l0 :: tail, by simp, rfl⟩
      simp only [List.nil_append, List.singleton_append]
      refine List.Chain'.cons ?_ (heq ▸ hc)
      unfold Overflows
      rw [hfw, firstWord_of_no_space word (hrest word (List.mem_cons_self _ _))]
      omega

/-! ## The claims -/

/-- C1 (as stated, refuted): the clamped window `stepWeight ≤ maxRows ≤
allData.length` fails in three reachable states: right after a 3-row sheet is
loaded (`maxRows` is 15), after `setStepWeight(100)` on a 20-row sheet (the
step is 100, `maxRows` is 15), and after a further `decreaseMaxRows` (`maxRows`
is 100, the sheet has 20 rows). -/
theorem window_invariant_counterexample :
    ¬ windowInvariant (run (loaded 3) []) ∧
    ¬ windowInvariant (run (loaded 20) [Op.setStepWeight 100]) ∧
    ¬ windowInvariant (run (loaded 20) [Op.setStepWeight 100, Op.decreaseMaxRows]) := by
  decide

/-- C1 (amended): from a state with the initial `maxRows = 15` and
`stepWeight = 5` whose dataset has at least 15 rows, after any finite sequence
of `increaseMaxRows`, `decreaseMaxRows` and `setStepWeight` calls whose weights
are among 1, 5, 10, 100 and at most `allData.length`, the dataset is unchanged,
`maxRows ≤ allData.length` holds, and `stepWeight ≤ maxRows` holds whenever the
last call was not a `setStepWeight`. -/
theorem window_invariant_amended (s : State) (ops : List Op)
    (hm : s.maxRows = 15) (hs : s.stepWeight = 5)
    (hlen : 15 ≤ s.allData.length)
    (hw : ∀ w, Op.setStepWeight w ∈ ops →
      w ∈ ([1, 5, 10, 100] : List Int) ∧ w ≤ (s.allData.length : Int)) :
    (run s ops).allData = s.allData ∧
    (run s ops).maxRows ≤ ((run s ops).allData.length : Int) ∧
    (endsWithSet ops = false → windowInvariant (run s ops)) := by
  have hpos : ∀ w, w ∈ ([1, 5, 10, 100] : List Int) → 0 < w := by
    intro w hmem
    simp only [List.mem_cons, List.mem_singleton, List.not_mem_nil, or_false] at hmem
    omega
  have hb : Bounded (s.allData.length : Int) s :=
    ⟨rfl, by omega, by omega, by omega, by omega⟩
  have hall : Bounded (s.allData.length : Int) (run s ops) :=
    bounded_run ops s hb (fun w hmem => ⟨hpos w (hw w hmem).1, (hw w hmem).2⟩)
  refine ⟨run_allData ops s, ?_, ?_⟩
  · rw [run_allData]; exact hall.2.2.2.2
  · intro hend
    rcases List.eq_nil_or_concat ops with h0 | ⟨ops1, op, h1⟩
    on_goal 2 => rw [List.concat_eq_append] at h1
    · subst h0
      refine ⟨?_, ?_⟩
      · show s.stepWeight ≤ s.maxRows
        omega
      · show s.maxRows ≤ (s.allData.length : Int)
        omega
    · subst h1
      have hnot : ∀ w, op ≠ Op.setStepWeight w := by
        intro w e
        have := (endsWithSet_concat ops1 op).2 ⟨w, e⟩
        rw [hend] at this
        exact Bool.false_ne_true this
      have hprev : Bounded (s.allData.length : Int) (run s ops1) :=
        bounded_run ops1 s hb (fun w hmem =>
          ⟨hpos w (hw w (List.mem_append_left _ hmem)).1,
           (hw w (List.mem_append_left _ hmem)).2⟩)
      refine ⟨?_, ?_⟩
      · rw [run_concat]
        exact step_le_after_move hprev op hnot
      · rw [run_allData]; exact hall.2.2.2.2

/-- C1 (amended), at an instance: a 20-row sheet, then `setStepWeight(10)`,
`decreaseMaxRows`, `increaseMaxRows`. -/
theorem window_invariant_amended_witness :
    windowInvariant
      (run (loaded 20) [Op.setStepWeight 10, Op.decreaseMaxRows, Op.increaseMaxRows]) :=
  (window_invariant_amended (loaded 20)
    [Op.setStepWeight 10, Op.decreaseMaxRows, Op.increaseMaxRows]
    (by decide) (by decide) (by decide)
    (by
      intro w hmem
      have hw10 : w = 10 := by simpa using hmem
      subst hw10
      decide)).2.2 (by decide)

/-- C2 (as stated, refuted): after two `increaseMaxRows` on a 22-row sheet
`maxRows` is 22, and a further successful `processExcelData` leaves it at 22,
not 15. -/
theorem processExcelData_reset_counterexample :
    (processExcelData (increaseMaxRows (increaseMaxRows (loaded 22)))
        (List.replicate 30 sampleRow)).isFileLoaded = true ∧
    (processExcelData (increaseMaxRows (increaseMaxRows (loaded 22)))
        (List.replicate 30 sampleRow)).allData.length = 30 ∧
    (processExcelData (increaseMaxRows (increaseMaxRows (loaded 22)))
        (List.replicate 30 sampleRow)).maxRows ≠ 15 := by
  decide

/-- C2 (amended): `processExcelData` never assigns `maxRows` (nor
`stepWeight`): whatever the prior state and the decoded rows, both keep the
value they had, so `maxRows` is 15 after a load only if it was 15 before. -/
theorem processExcelData_keeps_maxRows (s : State) (jsonData : List Row) :
    (processExcelData s jsonData).maxRows = s.maxRows ∧
    (processExcelData s jsonData).stepWeight = s.stepWeight := by
  rcases processExcelData_cases s jsonData with h | h | h <;> rw [h.2] <;> simp

/-- C6: `increaseMaxRows` sets `maxRows` to
`min(maxRows + stepWeight, allData.length)` and keeps `stepWeight` and
`allData`; on a freshly loaded 22-row sheet (`maxRows` 15, step 5) one call
gives 20 and a second gives 22. -/
theorem increaseMaxRows_spec (s : State) :
    (increaseMaxRows s).maxRows = min (s.maxRows + s.stepWeight) (s.allData.length : Int) ∧
    (increaseMaxRows s).stepWeight = s.stepWeight ∧
    (increaseMaxRows s).allData = s.allData ∧
    ((loaded 22).allData.length = 22 ∧ (loaded 22).maxRows = 15 ∧
      (loaded 22).stepWeight = 5 ∧
      (increaseMaxRows (loaded 22)).maxRows = 20 ∧
      (increaseMaxRows (increaseMaxRows (loaded 22))).maxRows = 22) := by
  refine ⟨?_, ?_, ?_, ?_⟩
  · simp [increaseMaxRows]
  · simp [increaseMaxRows]
  · simp [increaseMaxRows]
  · decide

/-- C7: with `stepWeight` one of 1, 5, 10, 100, `decreaseMaxRows` sets
`maxRows` to `max(stepWeight, maxRows - stepWeight)` and keeps `stepWeight` and
`allData`; when `maxRows = stepWeight` it leaves `maxRows` as it is; and from
`maxRows = 15`, `setStepWeight(10)` then `decreaseMaxRows` gives 10, and one
more `decreaseMaxRows` still 10. -/
theorem decreaseMaxRows_spec (s : State)
    (h : s.stepWeight ∈ ([1, 5, 10, 100] : List Int)) :
    (decreaseMaxRows s).maxRows = max s.stepWeight (s.maxRows - s.stepWeight) ∧
    (decreaseMaxRows s).stepWeight = s.stepWeight ∧
    (decreaseMaxRows s).allData = s.allData ∧
    (s.maxRows = s.stepWeight → (decreaseMaxRows s).maxRows = s.maxRows) ∧
    (s.maxRows = 15 →
      (decreaseMaxRows (setStepWeight s 10)).maxRows = 10 ∧
      (decreaseMaxRows (decreaseMaxRows (setStepWeight s 10))).maxRows = 10) := by
  have hpos : 0 < s.stepWeight := by
    simp only [List.mem_cons, List.mem_singleton, List.not_mem_nil, or_false] at h
    omega
  refine ⟨?_, ?_, ?_, ?_, ?_⟩
  · simp [decreaseMaxRows]
  · simp [decreaseMaxRows]
  · simp [decreaseMaxRows]
  · intro e
    simp only [decreaseMaxRows, updateDisplayedData_maxRows]
    rw [e]; exact max_eq_left (by omega)
  · intro e
    simp only [decreaseMaxRows, setStepWeight, updateDisplayedData_maxRows,
      updateDisplayedData_stepWeight, e]
    decide

/-- C7, at an instance: a 20-row sheet, `maxRows` 15, after
`setStepWeight(10)`. -/
theorem decreaseMaxRows_spec_witness :
    (decreaseMaxRows (setStepWeight (loaded 20) 10)).maxRows = 10 ∧
    (decreaseMaxRows (decreaseMaxRows (setStepWeight (loaded 20) 10))).maxRows = 10 ∧
    (decreaseMaxRows (setStepWeight (loaded 20) 10)).allData.length = 20 :=
  ⟨((decreaseMaxRows_spec (setStepWeight (loaded 20) 10) (by decide)).1).trans (by decide),
   by decide,
   by decide⟩
/-- C3: when the column check passes and some row has an `X`, `Y` or `R` that
is not a number, in the sense of the loader's own test `isNaN` (a missing cell,
`NaN`, or text that does not spell a number), `processExcelData` ends with the
error "Колонки X, Y, R должны содержать только числа" (behind the lead text of
the `catch` block), `isFileLoaded = false`, and `allData` and `data` as before:
no row of the rejected sheet is stored. -/
theorem processExcelData_rejects_non_numeric (s : State) (jsonData : List Row)
    (hcols : columnCheckFails jsonData = false)
    (hbad : ∃ item ∈ jsonData, isNaN (getProp item "X") = true ∨
      isNaN (getProp item "Y") = true ∨ isNaN (getProp item "R") = true) :
    (processExcelData s jsonData).error =
      some ("Ошибка при чтении файла: " ++ "Колонки X, Y, R должны содержать только числа") ∧
    (processExcelData s jsonData).isFileLoaded = false ∧
    (processExcelData s jsonData).allData = s.allData ∧
    (processExcelData s jsonData).data = s.data := by
  have hlen : (jsonData.filter isValidItem).length ≠ jsonData.length := by
    obtain ⟨item, hmem, hnan⟩ := hbad
    intro heq
    have hall := (List.filter_length_eq_length.1 heq) item hmem
    simp only [isValidItem, Bool.and_eq_true, Bool.not_eq_true'] at hall
    rcases hnan with h | h | h
    · rw [hall.1.1] at h; exact Bool.false_ne_true h
    · rw [hall.1.2] at h; exact Bool.false_ne_true h
    · rw [hall.2] at h; exact Bool.false_ne_true h
  rw [processExcelData_of_invalid s jsonData hcols hlen]
  exact ⟨rfl, rfl, rfl, rfl⟩

/-- C3, at an instance: a 20-row sheet is loaded, then a sheet whose second
row has the text `abc` in `X`. -/
theorem processExcelData_rejects_non_numeric_witness :
    (processExcelData (loaded 20) [sampleRow, textRow]).isFileLoaded = false ∧
    (processExcelData (loaded 20) [sampleRow, textRow]).allData = (loaded 20).allData :=
  have h := processExcelData_rejects_non_numeric (loaded 20) [sampleRow, textRow]
    (by decide) ⟨textRow, by simp, Or.inl (by decide)⟩
  ⟨h.2.1, h.2.2.1⟩

/-- C4: for a decoded row list with at least one row, in which every row has
the keys `X`, `Y`, `R`, `Name` and `X`, `Y`, `R` that `isNaN` accepts,
`processExcelData` ends with `allData` the input rows in their order (so of the
same length), `isFileLoaded = true` and `error = null`. -/
theorem processExcelData_loads_valid (s : State) (jsonData : List Row)
    (hne : jsonData ≠ [])
    (hkeys : ∀ item ∈ jsonData, hasOwnProperty item "X" = true ∧
      hasOwnProperty item "Y" = true ∧ hasOwnProperty item "R" = true ∧
      hasOwnProperty item "Name" = true)
    (hnum : ∀ item ∈ jsonData, isNaN (getProp item "X") = false ∧
      isNaN (getProp item "Y") = false ∧ isNaN (getProp item "R") = false) :
    (processExcelData s jsonData).allData = jsonData ∧
    (processExcelData s jsonData).allData.length = jsonData.length ∧
    (processExcelData s jsonData).isFileLoaded = true ∧
    (processExcelData s jsonData).error = none := by
  have hcols : columnCheckFails jsonData = false := by
    cases jsonData with
    | nil => exact absurd rfl hne
    | cons first rest =>
      obtain ⟨h1, h2, h3, h4⟩ := hkeys first (List.mem_cons_self _ _)
      simp [columnCheckFails, h1, h2, h3, h4]
  have hfilter : jsonData.filter isValidItem = jsonData := by
    apply List.filter_eq_self.2
    intro item hmem
    obtain ⟨h1, h2, h3⟩ := hnum item hmem
    simp [isValidItem, h1, h2, h3]
  rw [processExcelData_of_valid s jsonData hcols (by rw [hfilter]), hfilter]
  simp

/-- C4, at an instance: three sample rows loaded into the initial state. -/
theorem processExcelData_loads_valid_witness :
    (processExcelData initialState [sampleRow, sampleRow, sampleRow]).allData =
      [sampleRow, sampleRow, sampleRow] ∧
    (processExcelData initialState [sampleRow, sampleRow, sampleRow]).isFileLoaded = true :=
  have h := processExcelData_loads_valid initialState [sampleRow, sampleRow, sampleRow]
    (by simp)
    (by intro item hmem; simp at hmem; subst hmem; decide)
    (by intro item hmem; simp at hmem; subst hmem; decide)
  ⟨h.1, h.2.2.1⟩

/-- C5: for a decoded row list that is empty, or whose first row lacks one of
the keys `X`, `Y`, `R`, `Name`, `processExcelData` ends with the error
"Файл должен содержать колонки: X, Y, R, Name" (behind the lead text of the
`catch` block), `isFileLoaded = false`, and `allData` as before. -/
theorem processExcelData_rejects_schema (s : State) (jsonData : List Row)
    (h : jsonData = [] ∨ ∃ first, jsonData.head? = some first ∧
      ∃ key ∈ ["X", "Y", "R", "Name"], hasOwnProperty first key = false) :
    (processExcelData s jsonData).error =
      some ("Ошибка при чтении файла: " ++ "Файл должен содержать колонки: X, Y, R, Name") ∧
    (processExcelData s jsonData).isFileLoaded = false ∧
    (processExcelData s jsonData).allData = s.allData := by
  have hcols : columnCheckFails jsonData = true := by
    rcases h with h | ⟨first, hfirst, key, hkey, hmiss⟩
    · subst h; rfl
    · cases jsonData with
      | nil => rfl
      | cons a rest =>
        simp only [List.head?_cons, Option.some.injEq] at hfirst
        subst hfirst
        simp only [List.mem_cons, List.mem_singleton, List.not_mem_nil, or_false] at hkey
        rcases hkey with e | e | e | e <;> subst e <;> simp [columnCheckFails, hmiss]
  rw [processExcelData_of_columnCheckFails s jsonData hcols]
  exact ⟨rfl, rfl, rfl⟩

/-- C5, at an instance: a 20-row sheet is loaded, then a sheet whose rows have
only `X` and `Y`. -/
theorem processExcelData_rejects_schema_witness :
    (processExcelData (loaded 20) [shortRow, shortRow]).isFileLoaded = false ∧
    (processExcelData (loaded 20) [shortRow, shortRow]).allData = (loaded 20).allData :=
  have h := processExcelData_rejects_schema (loaded 20) [shortRow, shortRow]
    (Or.inr ⟨shortRow, rfl, "R", by simp, by decide⟩)
  ⟨h.2.1, h.2.2⟩
/-- C8 (as stated, refuted): the number `-1` is accepted by the loader, its
floor is `3` modulo 4, and `getColor(-1)` is the fallback `steelblue`, not
`blue`. -/
theorem getColor_fallback_counterexample :
    isValidItem negativeRow = true ∧
    (processExcelData initialState [negativeRow]).isFileLoaded = true ∧
    ⌊(-1 : ℚ)⌋ % 4 = 3 ∧
    getColor (JSNum.fin (-1)) = Color.steelblue := by
  have hfloor : ⌊(-1 : ℚ)⌋ = -1 := by norm_num
  refine ⟨by decide, by decide, ?_, ?_⟩
  · rw [hfloor]; decide
  · rw [getColor_fin, hfloor]; decide

/-- C8 (amended): for every finite number `x ≥ 0` (each is accepted by the
numeric check), `getColor(x)` is fixed by `floor(x) mod 4` as 0 → yellow,
1 → green, 2 → red, 3 → blue, and is never the fallback `steelblue`. -/
theorem getColor_nonneg (q : ℚ) (h : 0 ≤ q) :
    isNaN (JSValue.num (JSNum.fin q)) = false ∧
    getColor (JSNum.fin q) =
      (if ⌊q⌋ % 4 = 0 then Color.yellow
       else if ⌊q⌋ % 4 = 1 then Color.green
       else if ⌊q⌋ % 4 = 2 then Color.red
       else Color.blue) ∧
    getColor (JSNum.fin q) ≠ Color.steelblue := by
  have hfl : 0 ≤ ⌊q⌋ := Int.floor_nonneg.2 h
  have hmod : Int.tmod ⌊q⌋ 4 = ⌊q⌋ % 4 := Int.tmod_eq_emod hfl (by norm_num)
  have h1 : 0 ≤ ⌊q⌋ % 4 := Int.emod_nonneg _ (by norm_num)
  have h2 : ⌊q⌋ % 4 < 4 := Int.emod_lt_of_pos _ (by norm_num)
  have hcol : getColor (JSNum.fin q) =
      (if ⌊q⌋ % 4 = 0 then Color.yellow
       else if ⌊q⌋ % 4 = 1 then Color.green
       else if ⌊q⌋ % 4 = 2 then Color.red
       else Color.blue) := by
    rw [getColor_fin, hmod]
    have h3 : ⌊q⌋ % 4 = 0 ∨ ⌊q⌋ % 4 = 1 ∨ ⌊q⌋ % 4 = 2 ∨ ⌊q⌋ % 4 = 3 := by omega
    rcases h3 with e | e | e | e <;> rw [e] <;> rfl
  refine ⟨rfl, hcol, ?_⟩
  rw [hcol]
  split_ifs <;> decide

/-- C8 (amended), at an instance: `x = 7/2`. -/
theorem getColor_nonneg_witness :
    (0 : ℚ) ≤ 7 / 2 ∧ getColor (JSNum.fin (7 / 2)) ≠ Color.steelblue :=
  ⟨by norm_num, (getColor_nonneg (7 / 2) (by norm_num)).2.2⟩

/-- C9 (as stated, refuted): `splitIntoLines` with `maxWidth` 40 returns fewer
than 2 lines for the note of the scenario. -/
theorem splitIntoLines_scenario_counterexample :
    ¬ (2 ≤ (splitIntoLines scenarioNote 40).length) := by
  decide

/-- C9 (amended): the note of the scenario is 39 characters long, and
`splitIntoLines` with `maxWidth` 40 returns exactly one line, the whole
note. -/
theorem splitIntoLines_scenario :
    jsLength scenarioNote = 39 ∧ splitIntoLines scenarioNote 40 = [scenarioNote] := by
  decide

/-- C10: when every word of `text.split(' ')` has at most 40 characters, every
line `splitIntoLines(text, 40)` returns has at most 40 characters; and each
line but the last was closed because the first word of the next line, with one
space, did not fit behind it within 40 characters. -/
theorem splitIntoLines_width (text : List Char)
    (hwords : ∀ w ∈ splitSpace text, jsLength w ≤ 40) :
    (∀ line ∈ splitIntoLines text 40, jsLength line ≤ 40) ∧
    List.Chain' (Overflows 40) (splitIntoLines text 40) := by
  unfold splitIntoLines
  have hsp := splitSpace_no_space text
  cases hs : splitSpace text with
  | nil => exact absurd hs (splitSpace_ne_nil text)
  | cons first rest =>
    rw [hs] at hwords hsp
    simp only
    refine ⟨?_, ?_⟩
    · exact splitLoop_width 40 rest first (hwords first (List.mem_cons_self _ _))
        (fun w hw => hwords w (List.mem_cons_of_mem _ hw))
    · exact (splitLoop_breaks 40 rest first
        (fun w hw => hsp w (List.mem_cons_of_mem _ hw))).1

/-- C10, at an instance: a note of 59 characters, wrapped into two lines. -/
theorem splitIntoLines_width_witness :
    (splitIntoLines longNote 40).length = 2 ∧
    List.Chain' (Overflows 40) (splitIntoLines longNote 40) :=
  ⟨by decide, (splitIntoLines_width longNote (by decide)).2⟩

end QuadroBubbles
